import Mathlib

/-!
# KV_Store: the in-memory key-value store of `main.go` and its HTTP handlers

A shallow embedding of `src/main.go`.

* A Go `map[K]V` is represented by its lookup function `K → Option V`
  (`none` = the key has no entry).  Two maps are equal exactly when they
  hold the same entries, which is what "the mapping is unchanged / equal"
  means for an unordered Go map.
* `s.data[key] = val`, `val, ok := s.data[key]` and `delete(s.data, key)`
  become `GoMap.set`, `GoMap.lookup` and `GoMap.del`.
* A Go `error` built by `fmt.Errorf` is represented by its message; `nil`
  is `none`.
* Methods with a pointer receiver that assign to `s.data` return the new
  store next to their Go result.  In these sequential definitions the mutex
  `mu` is not represented: on a single thread every `Lock`/`RLock` is paired
  with its deferred unlock and leaves the store as it found it.
* The locking itself is represented separately (`Op.actions`, `Sys`): every
  method call is a goroutine running the lock and map steps of the method
  body, and goroutines interleave step by step against one `RWMutex`.
* Requests are served one after the other (`Server.serve`), each by the
  handler that `Server.Start` registers for its route.
* `fmt.Printf` in `Delete` is represented by the list of strings written to
  standard output.
* `echo.Context` is represented by its path parameters; `c.JSON(code, m)`
  records the status code and the map `m` that is handed to the encoder and
  returns `nil`.
-/

namespace KVStoreGo

/-! ## Go primitives used by the source -/

/-- Go zero value of a type (what `val, ok := m[key]` leaves in `val` on a miss). -/
class ZeroValue (V : Type) where
  zero : V

/-- The zero value of Go `string` is the empty string. -/
instance : ZeroValue String := ⟨""⟩

/-- Rendering of a value by the `%v` verb of package `fmt`. -/
class FmtV (K : Type) where
  fmtV : K → String

/-- For a Go `string` the verb `%v` prints the string itself. -/
instance : FmtV String := ⟨fun s => s⟩

/-- A Go `error` value as produced by `fmt.Errorf`: its message. -/
structure GoError where
  msg : String
deriving DecidableEq, Repr

/-- A Go `map[K]V`, as its lookup function. -/
abbrev GoMap (K V : Type) := K → Option V

/-- The result of `make(map[K]V)`: no entries. -/
def GoMap.make {K V : Type} : GoMap K V := fun _ => none

/-- The statement `m[key] = val`. -/
def GoMap.set {K V : Type} [DecidableEq K] (m : GoMap K V) (key : K) (val : V) : GoMap K V :=
  fun k => if k = key then some val else m k

/-- The statement `val, ok := m[key]`: a miss yields the zero value and `false`. -/
def GoMap.lookup {K V : Type} [ZeroValue V] (m : GoMap K V) (key : K) : V × Bool :=
  match m key with
  | some v => (v, true)
  | none => (ZeroValue.zero, false)

/-- The builtin `delete(m, key)`. -/
def GoMap.del {K V : Type} [DecidableEq K] (m : GoMap K V) (key : K) : GoMap K V :=
  fun k => if k = key then none else m k

/-! ## `KVStore` -/

/-- The struct `KVStore[K, V]` (field `data`; see the header for `mu`). -/
structure KVStore (K V : Type) where
  data : GoMap K V

/-- Function `NewKVStore`: a store over `make(map[K]V)`. -/
def NewKVStore {K V : Type} : KVStore K V :=
  { data := GoMap.make }

/-- The error `fmt.Errorf("the key (%v) does not exist", key)`, used by `Get` and `Update`. -/
def errNotExist {K : Type} [FmtV K] (key : K) : GoError :=
  ⟨"the key (" ++ FmtV.fmtV key ++ ") does not exist"⟩

/-- The error `fmt.Errorf("the key (%v) does not exits", key)`, used by `Delete`. -/
def errNotExits {K : Type} [FmtV K] (key : K) : GoError :=
  ⟨"the key (" ++ FmtV.fmtV key ++ ") does not exits"⟩

/-- The line written by `fmt.Printf("the key (%v) successfully deleted\n", key)`. -/
def deletedLine {K : Type} [FmtV K] (key : K) : String :=
  "the key (" ++ FmtV.fmtV key ++ ") successfully deleted\n"

/-- Method `KVStore.Has`: `_, ok := s.data[key]; return ok`. -/
def KVStore.Has {K V : Type} [ZeroValue V] (s : KVStore K V) (key : K) : Bool :=
  (s.data.lookup key).2

/-- Method `KVStore.Put`: `s.data[key] = val; return nil`.  Result: the returned error and the store. -/
def KVStore.Put {K V : Type} [DecidableEq K] (s : KVStore K V) (key : K) (val : V) :
    Option GoError × KVStore K V :=
  (none, { data := s.data.set key val })

/-- Method `KVStore.Get`: look the key up; on a miss return the looked-up (zero) value and an error. -/
def KVStore.Get {K V : Type} [ZeroValue V] [FmtV K] (s : KVStore K V) (key : K) :
    V × Option GoError :=
  let (val, ok) := s.data.lookup key
  if !ok then (val, some (errNotExist key)) else (val, none)

/-- Method `KVStore.Update`: fail when `Has` is false, otherwise assign.  Result: error and store. -/
def KVStore.Update {K V : Type} [DecidableEq K] [ZeroValue V] [FmtV K]
    (s : KVStore K V) (key : K) (val : V) : Option GoError × KVStore K V :=
  if !s.Has key then (some (errNotExist key), s)
  else (none, { data := s.data.set key val })

/-- What a call of `Delete` leaves behind: returned error, store, and output written. -/
structure DeleteResult (K V : Type) where
  err : Option GoError
  store : KVStore K V
  out : List String

/-- Method `KVStore.Delete`: fail on a miss, otherwise remove the entry, print, and return `nil`. -/
def KVStore.Delete {K V : Type} [DecidableEq K] [ZeroValue V] [FmtV K]
    (s : KVStore K V) (key : K) : DeleteResult K V :=
  let (_, ok) := s.data.lookup key
  if !ok then { err := some (errNotExits key), store := s, out := [] }
  else { err := none, store := { data := s.data.del key }, out := [deletedLine key] }

/-! ## Sequences of store operations -/

/-- One call of a store method. -/
inductive Op (K V : Type) where
  | Put (key : K) (val : V)
  | Get (key : K)
  | Update (key : K) (val : V)
  | Delete (key : K)
  | Has (key : K)
deriving DecidableEq, Repr

/-- The store after one method call (`Get` and `Has` do not assign to `s.data`). -/
def Op.apply {K V : Type} [DecidableEq K] [ZeroValue V] [FmtV K]
    (s : KVStore K V) : Op K V → KVStore K V
  | .Put key val => (s.Put key val).2
  | .Get _ => s
  | .Update key val => (s.Update key val).2
  | .Delete key => (s.Delete key).store
  | .Has _ => s

/-- The store after a sequence of method calls, first call first. -/
def run {K V : Type} [DecidableEq K] [ZeroValue V] [FmtV K]
    (s : KVStore K V) (ops : List (Op K V)) : KVStore K V :=
  ops.foldl Op.apply s

/-! ## The HTTP handlers -/

/-- The part of `echo.Context` the handlers read: the path parameters of the request. -/
structure Context where
  params : List (String × String)

/-- The call `c.Param(name)`: the value of the path parameter, `""` when there is none. -/
def Context.Param (c : Context) (name : String) : String :=
  match c.params.lookup name with
  | some v => v
  | none => ""

/-- What `c.JSON(code, m)` sends: the status code and the `map[string]string` to encode. -/
structure Response where
  status : Nat
  body : List (String × String)
deriving DecidableEq, Repr

/-- The constant `http.StatusOK`. -/
def StatusOK : Nat := 200

/-- The struct `Server`; its `Storage` is the `KVStore[string, string]` set by `NewServer`. -/
structure Server where
  ListenAddr : String
  Storage : KVStore String String

/-- Function `NewServer`: a server over a fresh store. -/
def NewServer (listenAddr : String) : Server :=
  { ListenAddr := listenAddr, Storage := NewKVStore }

/-- Outcome of a handler: the error it returns, the response it sent (if any), the server after. -/
structure HandlerResult where
  err : Option GoError
  resp : Option Response
  server : Server

/-- The call `c.JSON(code, m)` followed by `return`: the response is sent and `nil` is returned. -/
def Context.JSON (s : Server) (code : Nat) (m : List (String × String)) : HandlerResult :=
  { err := none, resp := some { status := code, body := m }, server := s }

/-- Method `Server.handlePut`: store the pair, answer `{"msg": "ok"}`. -/
def Server.handlePut (s : Server) (c : Context) : HandlerResult :=
  let key := c.Param "key"
  let value := c.Param "value"
  let s1 : Server := { s with Storage := (s.Storage.Put key value).2 }
  Context.JSON s1 StatusOK [("msg", "ok")]

/-- Method `Server.handleGet`: answer the value, or the placeholder when `Get` fails. -/
def Server.handleGet (s : Server) (c : Context) : HandlerResult :=
  let key := c.Param "key"
  let (value, err) := s.Storage.Get key
  if err ≠ none then Context.JSON s StatusOK [("value", "key not found")]
  else Context.JSON s StatusOK [("value", value)]

/-- Method `Server.handleUpdate`: return the error of `Update`, else answer "updated". -/
def Server.handleUpdate (s : Server) (c : Context) : HandlerResult :=
  let key := c.Param "key"
  let value := c.Param "value"
  let (err, st) := s.Storage.Update key value
  let s1 : Server := { s with Storage := st }
  if err ≠ none then { err := err, resp := none, server := s1 }
  else Context.JSON s1 StatusOK [("msg", "updated")]

/-- Method `Server.handleDelete`: return the error of `Delete`, else answer "deleted". -/
def Server.handleDelete (s : Server) (c : Context) : HandlerResult :=
  let key := c.Param "key"
  let r := s.Storage.Delete key
  let s1 : Server := { s with Storage := r.store }
  if r.err ≠ none then { err := r.err, resp := none, server := s1 }
  else Context.JSON s1 StatusOK [("msg", "deleted")]

/-- The four routes registered in `Server.Start`, by their handler. -/
inductive Route where
  | put
  | get
  | update
  | delete
deriving DecidableEq, Repr

/-- The handler that `Server.Start` registers for a route. -/
def Server.route (s : Server) : Route → Context → HandlerResult
  | Route.put, c => s.handlePut c
  | Route.get, c => s.handleGet c
  | Route.update, c => s.handleUpdate c
  | Route.delete, c => s.handleDelete c

/-- Requests served one after the other by the same server: each handler runs on the server
left by the one before; the outcomes are listed in order. -/
def Server.serve (s : Server) : List (Route × Context) → List HandlerResult
  | [] => []
  | (r, c) :: rest => s.route r c :: (s.route r c).server.serve rest

/-! ## The lock discipline of the store methods

Each method call is a goroutine running the steps of the method body that touch the mutex or
the map, in source order; goroutines interleave step by step.  `sync.RWMutex` is represented
by its holders: `Lock` waits until nobody holds the mutex, `RLock` waits while a writer holds
it, and unlocking a mutex that is not held is a run-time error (no step). -/

/-- The state of a `sync.RWMutex`: whether a writer holds it, and how many readers do. -/
structure RWMutex where
  writer : Bool
  readers : Nat
deriving DecidableEq, Repr

/-- A step of a method body that touches the mutex `s.mu` or the map `s.data`. -/
inductive Action where
  | Lock
  | Unlock
  | RLock
  | RUnlock
  | ReadMap
  | WriteMap
deriving DecidableEq, Repr

/-- The steps of `KVStore.Has`: the lookup `_, ok := s.data[key]`, and nothing else. -/
def HasActions : List Action := [Action.ReadMap]

/-- The steps of one method call in source order, the deferred unlock last; `present` is the
outcome of the lookup, which selects the branch taken in `Update` and `Delete`. -/
def Op.actions {K V : Type} (present : Bool) : Op K V → List Action
  | .Put _ _ => [Action.Lock, Action.WriteMap, Action.Unlock]
  | .Get _ => [Action.RLock, Action.ReadMap, Action.RUnlock]
  | .Update _ _ =>
    Action.Lock :: (HasActions ++ (if present then [Action.WriteMap] else []) ++ [Action.Unlock])
  | .Delete _ =>
    Action.Lock :: Action.ReadMap :: ((if present then [Action.WriteMap] else []) ++ [Action.Unlock])
  | .Has _ => HasActions

/-- How a goroutine holds the mutex at the moment. -/
inductive Held where
  | free
  | shared
  | exclusive
deriving DecidableEq, Repr

/-- A goroutine inside a method call: how it holds the mutex and the steps still to run. -/
structure Thread where
  held : Held
  rest : List Action
deriving DecidableEq, Repr

/-- The next step of a goroutine against the mutex; `none` when it waits, has finished, or
unlocks a mutex that is not held. -/
def Thread.step (mu : RWMutex) (t : Thread) : Option (RWMutex × Thread) :=
  match t.rest with
  | [] => none
  | Action.Lock :: r =>
    if mu.writer = false ∧ mu.readers = 0 then
      some ({ writer := true, readers := mu.readers }, { held := Held.exclusive, rest := r })
    else none
  | Action.Unlock :: r =>
    if mu.writer = true then
      some ({ writer := false, readers := mu.readers }, { held := Held.free, rest := r })
    else none
  | Action.RLock :: r =>
    if mu.writer = false then
      some ({ writer := mu.writer, readers := mu.readers + 1 }, { held := Held.shared, rest := r })
    else none
  | Action.RUnlock :: r =>
    if 0 < mu.readers then
      some ({ writer := mu.writer, readers := mu.readers - 1 }, { held := Held.free, rest := r })
    else none
  | Action.ReadMap :: r => some (mu, { held := t.held, rest := r })
  | Action.WriteMap :: r => some (mu, { held := t.held, rest := r })

/-- The mutex of one store together with the goroutines running calls on that store. -/
structure Sys where
  mu : RWMutex
  threads : List Thread
deriving DecidableEq, Repr

/-- Goroutine number `i` takes its next step. -/
def Sys.step (σ : Sys) (i : Nat) : Option Sys :=
  match σ.threads[i]? with
  | none => none
  | some t =>
    match t.step σ.mu with
    | none => none
    | some (mu, t1) => some { mu := mu, threads := σ.threads.set i t1 }

/-- The goroutines step in the order given by the schedule. -/
def Sys.exec (σ : Sys) : List Nat → Option Sys
  | [] => some σ
  | i :: sched =>
    match σ.step i with
    | none => none
    | some σ1 => σ1.exec sched

/-- The start: the zero-value mutex, and one goroutine per call, none of them started. -/
def Sys.init {K V : Type} (calls : List (Op K V × Bool)) : Sys :=
  { mu := { writer := false, readers := 0 },
    threads := calls.map fun c => { held := Held.free, rest := c.1.actions c.2 } }

/-- A read of the map is about to run in one goroutine while another goroutine is inside a
write-locked section, that is, inside the body of `Put`, `Update` or `Delete`. -/
def Sys.readDuringMutation (σ : Sys) : Prop :=
  ∃ (i j : Nat) (ti tj : Thread), i ≠ j ∧ σ.threads[i]? = some ti ∧ σ.threads[j]? = some tj ∧
    ti.rest.head? = some Action.ReadMap ∧ tj.held = Held.exclusive

/-- A goroutine follows the locking protocol from here on: it touches the map only while it
holds the mutex, writes it only while it holds the mutex exclusively, and releases what it
holds. -/
def Thread.disciplined : Held → List Action → Bool
  | Held.free, [] => true
  | Held.free, Action.Lock :: r => Thread.disciplined Held.exclusive r
  | Held.free, Action.RLock :: r => Thread.disciplined Held.shared r
  | Held.exclusive, Action.Unlock :: r => Thread.disciplined Held.free r
  | Held.shared, Action.RUnlock :: r => Thread.disciplined Held.free r
  | Held.exclusive, Action.ReadMap :: r => Thread.disciplined Held.exclusive r
  | Held.exclusive, Action.WriteMap :: r => Thread.disciplined Held.exclusive r
  | Held.shared, Action.ReadMap :: r => Thread.disciplined Held.shared r
  | _, _ => false

/-- Whether a goroutine holds the mutex exclusively. -/
def Thread.isExclusive (t : Thread) : Bool := decide (t.held = Held.exclusive)

/-- Whether a goroutine holds the mutex in shared mode. -/
def Thread.isShared (t : Thread) : Bool := decide (t.held = Held.shared)

/-- The mutex state agrees with the goroutines: every goroutine follows the protocol, the
writer flag is set exactly when one goroutine holds the mutex exclusively, the reader count is
the number of goroutines holding it in shared mode, and a writer excludes readers. -/
def Sys.Inv (σ : Sys) : Prop :=
  (∀ t ∈ σ.threads, Thread.disciplined t.held t.rest = true) ∧
    σ.threads.countP Thread.isExclusive = (if σ.mu.writer = true then 1 else 0) ∧
    σ.threads.countP Thread.isShared = σ.mu.readers ∧
    (σ.mu.writer = true → σ.mu.readers = 0)

/-! ## Basic facts about the map primitives and the store methods -/

theorem Has_eq_isSome {K V : Type} [ZeroValue V] (s : KVStore K V) (k : K) :
    s.Has k = (s.data k).isSome := by
  unfold KVStore.Has GoMap.lookup
  cases s.data k <;> rfl

theorem Has_false_iff {K V : Type} [ZeroValue V] (s : KVStore K V) (k : K) :
    s.Has k = false ↔ s.data k = none := by
  rw [Has_eq_isSome]; cases s.data k <;> simp

theorem Has_true_iff {K V : Type} [ZeroValue V] (s : KVStore K V) (k : K) :
    s.Has k = true ↔ ∃ v, s.data k = some v := by
  rw [Has_eq_isSome]; cases s.data k <;> simp

theorem Get_of_some {K V : Type} [ZeroValue V] [FmtV K] (s : KVStore K V) (k : K) (v : V)
    (h : s.data k = some v) : s.Get k = (v, none) := by
  simp [KVStore.Get, GoMap.lookup, h]

theorem Get_of_none {K V : Type} [ZeroValue V] [FmtV K] (s : KVStore K V) (k : K)
    (h : s.data k = none) : s.Get k = (ZeroValue.zero, some (errNotExist k)) := by
  simp [KVStore.Get, GoMap.lookup, h]

theorem Put_data {K V : Type} [DecidableEq K] (s : KVStore K V) (key : K) (val : V) (k : K) :
    (s.Put key val).2.data k = if k = key then some val else s.data k := rfl

theorem Update_of_absent {K V : Type} [DecidableEq K] [ZeroValue V] [FmtV K]
    (s : KVStore K V) (key : K) (val : V) (h : s.Has key = false) :
    s.Update key val = (some (errNotExist key), s) := by
  simp [KVStore.Update, h]

theorem Update_of_present {K V : Type} [DecidableEq K] [ZeroValue V] [FmtV K]
    (s : KVStore K V) (key : K) (val : V) (h : s.Has key = true) :
    s.Update key val = (none, (s.Put key val).2) := by
  simp [KVStore.Update, KVStore.Put, h]

theorem Delete_of_absent {K V : Type} [DecidableEq K] [ZeroValue V] [FmtV K]
    (s : KVStore K V) (key : K) (h : s.Has key = false) :
    s.Delete key = { err := some (errNotExits key), store := s, out := [] } := by
  have h2 : (s.data.lookup key).2 = false := h
  simp [KVStore.Delete, h2]

theorem Delete_of_present {K V : Type} [DecidableEq K] [ZeroValue V] [FmtV K]
    (s : KVStore K V) (key : K) (h : s.Has key = true) :
    s.Delete key =
      { err := none, store := { data := s.data.del key }, out := [deletedLine key] } := by
  have h2 : (s.data.lookup key).2 = true := h
  simp [KVStore.Delete, h2]

theorem run_nil {K V : Type} [DecidableEq K] [ZeroValue V] [FmtV K] (s : KVStore K V) :
    run s [] = s := rfl

theorem run_cons {K V : Type} [DecidableEq K] [ZeroValue V] [FmtV K]
    (s : KVStore K V) (op : Op K V) (ops : List (Op K V)) :
    run s (op :: ops) = run (Op.apply s op) ops := rfl

/-- Whether the key has an entry after one method call, in terms of the call and the store
before it. -/
theorem Has_apply_iff {K V : Type} [DecidableEq K] [ZeroValue V] [FmtV K]
    (s : KVStore K V) (op : Op K V) (k : K) :
    (Op.apply s op).Has k = true ↔
      (∃ v, op = Op.Put k v) ∨ (s.Has k = true ∧ op ≠ Op.Delete k) := by
  cases op with
  | Put key val =>
    simp only [Op.apply, Has_eq_isSome, Put_data]
    by_cases hk : k = key
    · subst hk; simp
    · have hk2 : ¬ key = k := fun h => hk h.symm
      simp [hk, hk2]
  | Get key => simp [Op.apply]
  | Has key => simp [Op.apply]
  | Update key val =>
    cases hp : s.Has key with
    | false => simp [Op.apply, Update_of_absent s key val hp]
    | true =>
      simp only [Op.apply, Update_of_present s key val hp, Has_eq_isSome, Put_data]
      by_cases hk : k = key
      · subst hk
        rw [Has_eq_isSome] at hp
        simp [hp]
      · simp [hk]
  | Delete key =>
    cases hp : s.Has key with
    | false =>
      simp only [Op.apply, Delete_of_absent s key hp]
      by_cases hk : key = k
      · subst hk; simp [hp]
      · simp [hk]
    | true =>
      simp only [Op.apply, Delete_of_present s key hp, Has_eq_isSome, GoMap.del]
      by_cases hk : k = key
      · subst hk; simp
      · have hk2 : ¬ key = k := fun h => hk h.symm
        simp [hk, hk2]

/-- A sequence starting with `op` holds a `Put` of the key with no later `Delete` of it exactly
when `op` is such a `Put`, or the rest of the sequence holds one. -/
theorem livePut_cons_iff {K V : Type} (op : Op K V) (ops : List (Op K V)) (k : K) :
    (∃ pre post v, op :: ops = pre ++ Op.Put k v :: post ∧ Op.Delete k ∉ post) ↔
      ((∃ v, op = Op.Put k v) ∧ Op.Delete k ∉ ops) ∨
      (∃ pre post v, ops = pre ++ Op.Put k v :: post ∧ Op.Delete k ∉ post) := by
  constructor
  · rintro ⟨pre, post, v, heq, hnd⟩
    cases pre with
    | nil =>
      simp only [List.nil_append, List.cons.injEq] at heq
      obtain ⟨h1, h2⟩ := heq
      exact Or.inl ⟨⟨v, h1⟩, h2 ▸ hnd⟩
    | cons p pre =>
      simp only [List.cons_append, List.cons.injEq] at heq
      exact Or.inr ⟨pre, post, v, heq.2, hnd⟩
  · rintro (⟨⟨v, hv⟩, hnd⟩ | ⟨pre, post, v, heq, hnd⟩)
    · exact ⟨[], ops, v, by simp [hv], hnd⟩
    · exact ⟨op :: pre, post, v, by simp [heq], hnd⟩

/-- The key has an entry after a sequence of calls exactly when the sequence holds a `Put` of
it with no later `Delete` of it, or the key had an entry at the start and the sequence holds
no `Delete` of it. -/
theorem Has_run_iff {K V : Type} [DecidableEq K] [ZeroValue V] [FmtV K]
    (ops : List (Op K V)) (s : KVStore K V) (k : K) :
    (run s ops).Has k = true ↔
      (∃ pre post v, ops = pre ++ Op.Put k v :: post ∧ Op.Delete k ∉ post) ∨
      (s.Has k = true ∧ Op.Delete k ∉ ops) := by
  induction ops generalizing s with
  | nil => simp [run_nil]
  | cons op ops ih =>
    rw [run_cons, ih, Has_apply_iff, livePut_cons_iff]
    simp only [List.mem_cons, not_or]
    constructor
    · rintro (h | ⟨h | ⟨h1, h2⟩, h3⟩)
      · exact Or.inl (Or.inr h)
      · exact Or.inl (Or.inl ⟨h, h3⟩)
      · exact Or.inr ⟨h1, fun e => h2 e.symm, h3⟩
    · rintro ((⟨h, h3⟩ | h) | ⟨h1, h2, h3⟩)
      · exact Or.inr ⟨Or.inl h, h3⟩
      · exact Or.inl h
      · exact Or.inr ⟨Or.inr ⟨h1, fun e => h2 e.symm⟩, h3⟩

theorem NewKVStore_Has {K V : Type} [ZeroValue V] (k : K) :
    (NewKVStore : KVStore K V).Has k = false := rfl

/-- The message built in `Delete` differs from the one built in `Get` and `Update`, for
every key. -/
theorem errNotExits_ne_errNotExist {K : Type} [FmtV K] (k : K) :
    errNotExits k ≠ errNotExist k := by
  intro h
  have hm : (errNotExits k).msg = (errNotExist k).msg := congrArg GoError.msg h
  have hd := congrArg String.data hm
  simp only [errNotExits, errNotExist, String.data_append, List.append_assoc] at hd
  have h2 := List.append_cancel_left (List.append_cancel_left hd)
  exact absurd h2 (by decide)

/-- On every store and every absent key, `Get` and `Update` return the same error and `Delete`
returns a different one. -/
theorem absent_errors {K V : Type} [DecidableEq K] [ZeroValue V] [FmtV K]
    (s : KVStore K V) (k : K) (v : V) (h : s.Has k = false) :
    (s.Get k).2 = some (errNotExist k) ∧ (s.Update k v).1 = some (errNotExist k) ∧
      (s.Delete k).err = some (errNotExits k) ∧ (s.Delete k).err ≠ (s.Get k).2 := by
  have hg := Get_of_none s k ((Has_false_iff s k).mp h)
  rw [hg, Update_of_absent s k v h, Delete_of_absent s k h]
  refine ⟨rfl, rfl, rfl, ?_⟩
  intro he
  exact errNotExits_ne_errNotExist k (Option.some.inj he)

/-- The result of `Get` depends only on the entry of the requested key. -/
theorem Get_congr {K V : Type} [ZeroValue V] [FmtV K] (s t : KVStore K V) (k : K)
    (h : s.data k = t.data k) : s.Get k = t.Get k := by
  simp [KVStore.Get, GoMap.lookup, h]

/-- The result of `Has` depends only on the entry of the requested key. -/
theorem Has_congr {K V : Type} [ZeroValue V] (s t : KVStore K V) (k : K)
    (h : s.data k = t.data k) : s.Has k = t.Has k := by
  simp [Has_eq_isSome, h]

/-- The path parameters of a request carrying a key and a value. -/
theorem Param_key_value (k v : String) :
    (Context.mk [("key", k), ("value", v)]).Param "key" = k ∧
      (Context.mk [("key", k), ("value", v)]).Param "value" = v := by
  constructor
  · simp [Context.Param, List.lookup]
  · have hne : ("value" == "key") = false := by decide
    simp [Context.Param, List.lookup, hne]

/-- The path parameter of a request carrying only a key. -/
theorem Param_key (k : String) : (Context.mk [("key", k)]).Param "key" = k := by
  simp [Context.Param, List.lookup]

/-- The function `handleGet` hands back the server it was given. -/
theorem handleGet_server (s : Server) (c : Context) : (s.handleGet c).server = s := by
  simp only [Server.handleGet, Context.JSON]
  split <;> rfl

/-- The response of `handleGet` when the requested key has an entry. -/
theorem handleGet_hit (s : Server) (c : Context) (v : String)
    (h : s.Storage.data (c.Param "key") = some v) :
    (s.handleGet c).err = none ∧
      (s.handleGet c).resp = some { status := 200, body := [("value", v)] } := by
  have hg := Get_of_some s.Storage (c.Param "key") v h
  simp [Server.handleGet, hg, Context.JSON, StatusOK]

/-- The response of `handleGet` when the requested key has no entry. -/
theorem handleGet_miss (s : Server) (c : Context)
    (h : s.Storage.data (c.Param "key") = none) :
    (s.handleGet c).err = none ∧
      (s.handleGet c).resp = some { status := 200, body := [("value", "key not found")] } := by
  have hg := Get_of_none s.Storage (c.Param "key") h
  simp [Server.handleGet, hg, Context.JSON, StatusOK]

/-- The store after `handlePut` is the store after `Put`. -/
theorem handlePut_Storage (s : Server) (c : Context) :
    (s.handlePut c).server.Storage = (s.Storage.Put (c.Param "key") (c.Param "value")).2 := rfl

/-- The store after `handleUpdate` is the store after `Update`. -/
theorem handleUpdate_Storage (s : Server) (c : Context) :
    (s.handleUpdate c).server.Storage
      = (s.Storage.Update (c.Param "key") (c.Param "value")).2 := by
  simp only [Server.handleUpdate, Context.JSON]
  split <;> rfl

/-- The store after `handleDelete` is the store after `Delete`. -/
theorem handleDelete_Storage (s : Server) (c : Context) :
    (s.handleDelete c).server.Storage = (s.Storage.Delete (c.Param "key")).store := by
  simp only [Server.handleDelete, Context.JSON]
  split <;> rfl

/-- A sequence made only of `Get` calls of one key leaves the store as it was. -/
theorem run_replicate_Get {K V : Type} [DecidableEq K] [ZeroValue V] [FmtV K]
    (s : KVStore K V) (k : K) (n : Nat) :
    run s (List.replicate n (Op.Get k : Op K V)) = s := by
  induction n with
  | zero => rfl
  | succ n ih => rw [List.replicate_succ, run_cons]; exact ih

/-! ## The store contract -/

/-- C1: for every store, key and value, `Put` returns no error (whatever the store held for
the key before), and `Get` of that key on the resulting store returns the value with no
error. -/
theorem C1_put_then_get {K V : Type} [DecidableEq K] [ZeroValue V] [FmtV K]
    (s : KVStore K V) (k : K) (v : V) :
    (s.Put k v).1 = none ∧ (s.Put k v).2.Get k = (v, none) :=
  ⟨rfl, Get_of_some _ _ _ (by simp [Put_data])⟩

/-- C2: after any finite sequence of `Put`/`Get`/`Update`/`Delete`/`Has` calls on a store made
by `NewKVStore` in which no `Put` of the key occurs, `Get` of the key fails with the not-found
error (and returns the zero value); in particular it fails on the fresh store. -/
theorem C2_get_without_put {K V : Type} [DecidableEq K] [ZeroValue V] [FmtV K]
    (k : K) (ops : List (Op K V)) (h : ∀ v, Op.Put k v ∉ ops) :
    (run NewKVStore ops).Get k = (ZeroValue.zero, some (errNotExist k)) ∧
      (NewKVStore : KVStore K V).Get k = (ZeroValue.zero, some (errNotExist k)) := by
  refine ⟨Get_of_none _ _ ?_, Get_of_none _ _ rfl⟩
  rw [← Has_false_iff]
  cases hh : (run (NewKVStore : KVStore K V) ops).Has k with
  | false => rfl
  | true =>
    exfalso
    rcases (Has_run_iff ops NewKVStore k).mp hh with ⟨pre, post, v, heq, _⟩ | ⟨h0, _⟩
    · exact h v (by simp [heq])
    · simp [NewKVStore_Has] at h0

/-- Witness for C2: the calls `Put b`, `Delete a`, `Update a`, `Get a`, `Has a` hold no
`Put` of the key `a`. -/
theorem C2_get_without_put_witness :
    (∀ v, Op.Put "a" v ∉
        [Op.Put "b" "1", Op.Delete "a", Op.Update "a" "2", Op.Get "a", Op.Has "a"]) ∧
      (run NewKVStore
        [Op.Put "b" "1", Op.Delete "a", Op.Update "a" "2", Op.Get "a", Op.Has "a"]).Get "a"
        = ("", some ⟨"the key (a) does not exist"⟩) :=
  ⟨by simp, (C2_get_without_put "a"
    [Op.Put "b" "1", Op.Delete "a", Op.Update "a" "2", Op.Get "a", Op.Has "a"] (by simp)).1⟩

/-- C3: `Put(k, v1)` then `Put(k, v2)` then `Get(k)` returns `v2` with no error, both `Put`s
return no error, and the resulting mapping equals the one the single `Put(k, v2)` produces
(last write wins). -/
theorem C3_last_write_wins {K V : Type} [DecidableEq K] [ZeroValue V] [FmtV K]
    (s : KVStore K V) (k : K) (v1 v2 : V) :
    (s.Put k v1).1 = none ∧ ((s.Put k v1).2.Put k v2).1 = none ∧
      ((s.Put k v1).2.Put k v2).2.Get k = (v2, none) ∧
      ((s.Put k v1).2.Put k v2).2 = (s.Put k v2).2 := by
  refine ⟨rfl, rfl, Get_of_some _ _ _ (by simp [Put_data]), ?_⟩
  have hd : ((s.Put k v1).2.Put k v2).2.data = (s.Put k v2).2.data := by
    funext x
    by_cases hx : x = k <;> simp [Put_data, hx]
  exact congrArg KVStore.mk hd

/-- C4: when the key is absent, `Update` returns the not-found error and the store after the
call is the store before it. -/
theorem C4_update_absent {K V : Type} [DecidableEq K] [ZeroValue V] [FmtV K]
    (s : KVStore K V) (k : K) (v : V) (h : s.Has k = false) :
    (s.Update k v).1 = some (errNotExist k) ∧ (s.Update k v).2 = s := by
  rw [Update_of_absent s k v h]
  exact ⟨rfl, rfl⟩

/-- Witness for C4: the key `a` is absent from the store holding only `b`. -/
theorem C4_update_absent_witness :
    ((NewKVStore : KVStore String String).Put "b" "1").2.Has "a" = false ∧
      ((((NewKVStore : KVStore String String).Put "b" "1").2.Update "a" "2").1
          = some ⟨"the key (a) does not exist"⟩ ∧
        (((NewKVStore : KVStore String String).Put "b" "1").2.Update "a" "2").2
          = ((NewKVStore : KVStore String String).Put "b" "1").2) :=
  ⟨by decide, C4_update_absent _ "a" "2" (by decide)⟩

/-- C5: when the key is present, `Update` returns no error and leaves exactly the store that
`Put` produces; and `Update` returns an error if and only if the key is absent. -/
theorem C5_update_present {K V : Type} [DecidableEq K] [ZeroValue V] [FmtV K]
    (s : KVStore K V) (k : K) (v : V) :
    (s.Has k = true → (s.Update k v).1 = none ∧ (s.Update k v).2 = (s.Put k v).2) ∧
      ((s.Update k v).1 ≠ none ↔ s.Has k = false) := by
  constructor
  · intro h
    rw [Update_of_present s k v h]
    exact ⟨rfl, rfl⟩
  · cases h : s.Has k with
    | false => simp [Update_of_absent s k v h]
    | true => simp [Update_of_present s k v h]

/-- Witness for C5: `Update` of the present key `a`. -/
theorem C5_update_present_witness :
    ((NewKVStore : KVStore String String).Put "a" "1").2.Has "a" = true ∧
      (((NewKVStore : KVStore String String).Put "a" "1").2.Update "a" "2").1 = none ∧
      (((NewKVStore : KVStore String String).Put "a" "1").2.Update "a" "2").2
        = (((NewKVStore : KVStore String String).Put "a" "1").2.Put "a" "2").2 :=
  ⟨by decide,
    (C5_update_present ((NewKVStore : KVStore String String).Put "a" "1").2 "a" "2").1
      (by decide)⟩

/-- C6: `Delete` returns an error, the not-found error built in `Delete`, if and only if the
key is absent; when it succeeds, `Get` of the key on the resulting store fails with the
not-found error and `Has` returns false. -/
theorem C6_delete {K V : Type} [DecidableEq K] [ZeroValue V] [FmtV K]
    (s : KVStore K V) (k : K) :
    ((s.Delete k).err ≠ none ↔ s.Has k = false) ∧
      (s.Has k = false → (s.Delete k).err = some (errNotExits k)) ∧
      ((s.Delete k).err = none →
        (s.Delete k).store.Get k = (ZeroValue.zero, some (errNotExist k)) ∧
        (s.Delete k).store.Has k = false) := by
  cases h : s.Has k with
  | false => simp [Delete_of_absent s k h]
  | true =>
    have hd : ({ data := s.data.del k } : KVStore K V).data k = none := by simp [GoMap.del]
    simp only [Delete_of_present s k h]
    refine ⟨by simp, by simp, fun _ => ⟨Get_of_none _ _ hd, (Has_false_iff _ _).mpr hd⟩⟩

/-- Witness for C6: deleting the present key `a` succeeds, and afterwards `Get` fails and
`Has` is false; deleting the absent key `b` fails. -/
theorem C6_delete_witness :
    ((((NewKVStore : KVStore String String).Put "a" "1").2.Delete "a").err = none ∧
      (((NewKVStore : KVStore String String).Put "a" "1").2.Delete "a").store.Get "a"
        = ("", some ⟨"the key (a) does not exist"⟩) ∧
      (((NewKVStore : KVStore String String).Put "a" "1").2.Delete "a").store.Has "a"
        = false) ∧
      (((NewKVStore : KVStore String String).Put "a" "1").2.Has "b" = false ∧
        (((NewKVStore : KVStore String String).Put "a" "1").2.Delete "b").err
          = some ⟨"the key (b) does not exits"⟩) :=
  ⟨⟨by decide,
      (C6_delete ((NewKVStore : KVStore String String).Put "a" "1").2 "a").2.2 (by decide)⟩,
    by decide,
    (C6_delete ((NewKVStore : KVStore String String).Put "a" "1").2 "b").2.1 (by decide)⟩

/-- C7: `Get` returns an error if and only if `Has` is false for the key, whatever value is
stored; a present key is returned with its value and no error, in particular when that value
is the zero value (the empty string for strings). -/
theorem C7_get_error_iff_absent {K V : Type} [DecidableEq K] [ZeroValue V] [FmtV K]
    (s : KVStore K V) (k : K) :
    ((s.Get k).2 ≠ none ↔ s.Has k = false) ∧
      (∀ v, s.data k = some v → s.Get k = (v, none) ∧ s.Has k = true) ∧
      (s.data k = some ZeroValue.zero →
        s.Get k = (ZeroValue.zero, none) ∧ s.Has k = true) := by
  have hv : ∀ v, s.data k = some v → s.Get k = (v, none) ∧ s.Has k = true :=
    fun v h => ⟨Get_of_some s k v h, (Has_true_iff s k).mpr ⟨v, h⟩⟩
  refine ⟨?_, hv, hv _⟩
  cases h : s.data k with
  | none => simp [Get_of_none s k h, (Has_false_iff s k).mpr h]
  | some v => simp [(hv v h).1, (hv v h).2]

/-- Witness for C7: the key `a` stored with the empty string is returned with no error, while
on the fresh store the same returned value comes with the error. -/
theorem C7_get_error_iff_absent_witness :
    ((NewKVStore : KVStore String String).Put "a" "").2.data "a" = some "" ∧
      (((NewKVStore : KVStore String String).Put "a" "").2.Get "a" = ("", none) ∧
        ((NewKVStore : KVStore String String).Put "a" "").2.Has "a" = true) ∧
      (NewKVStore : KVStore String String).Get "a"
        = ("", some ⟨"the key (a) does not exist"⟩) :=
  ⟨by decide,
    (C7_get_error_iff_absent ((NewKVStore : KVStore String String).Put "a" "").2 "a").2.2
      (by decide),
    by decide⟩

/-- C8: after any finite sequence of `Put`/`Get`/`Update`/`Delete`/`Has` calls on a store made
by `NewKVStore`, a key has an entry if and only if the sequence holds a `Put` of that key with
no `Delete` of that key after it; and `Update`, `Get`, `Has` and a failed `Delete` leave the
set of keys as it was. -/
theorem C8_key_set {K V : Type} [DecidableEq K] [ZeroValue V] [FmtV K] :
    (∀ (ops : List (Op K V)) (k : K),
        (run NewKVStore ops).Has k = true ↔
          ∃ pre post v, ops = pre ++ Op.Put k v :: post ∧ Op.Delete k ∉ post) ∧
      (∀ (s : KVStore K V) (key : K) (val : V) (k : K),
        (Op.apply s (Op.Update key val)).Has k = s.Has k) ∧
      (∀ (s : KVStore K V) (key : K), Op.apply s (Op.Get key : Op K V) = s) ∧
      (∀ (s : KVStore K V) (key : K), Op.apply s (Op.Has key : Op K V) = s) ∧
      (∀ (s : KVStore K V) (key : K),
        (s.Delete key).err ≠ none → Op.apply s (Op.Delete key : Op K V) = s) := by
  refine ⟨?_, ?_, fun _ _ => rfl, fun _ _ => rfl, ?_⟩
  · intro ops k
    rw [Has_run_iff]
    simp [NewKVStore_Has]
  · intro s key val k
    rw [Bool.eq_iff_iff, Has_apply_iff]
    simp
  · intro s key herr
    cases h : s.Has key with
    | false => simp [Op.apply, Delete_of_absent s key h]
    | true => simp [Delete_of_present s key h] at herr

/-- Witness for C8: in `Put a`, `Delete a`, `Put a`, `Update a`, `Delete b` the second `Put`
of `a` has no `Delete` of `a` after it, and the key `a` has an entry at the end; a failed
`Delete` on the fresh store leaves it as it was. -/
theorem C8_key_set_witness :
    (run (NewKVStore : KVStore String String)
        [Op.Put "a" "1", Op.Delete "a", Op.Put "a" "2", Op.Update "a" "3", Op.Delete "b"]).Has
        "a" = true ∧
      (∃ pre post v,
        [Op.Put "a" "1", Op.Delete "a", Op.Put "a" "2", Op.Update "a" "3", Op.Delete "b"]
          = pre ++ Op.Put "a" v :: post ∧ Op.Delete "a" ∉ post) ∧
      ((NewKVStore : KVStore String String).Delete "a").err ≠ none ∧
      Op.apply (NewKVStore : KVStore String String) (Op.Delete "a") = NewKVStore :=
  ⟨by decide,
    (C8_key_set.1 [Op.Put "a" "1", Op.Delete "a", Op.Put "a" "2", Op.Update "a" "3",
      Op.Delete "b"] "a").mp (by decide),
    by decide,
    C8_key_set.2.2.2.2 (NewKVStore : KVStore String String) "a" (by decide)⟩

/-- C9, evaluated on the fresh string store at the absent key `a`: `Get` and `Update` fail
with the message ending in "does not exist", `Delete` fails with the message ending in
"does not exits", so the error of `Delete` is not the error of `Get` and `Update`. -/
theorem C9_delete_error_differs :
    ((NewKVStore : KVStore String String).Get "a").2
        = some ⟨"the key (a) does not exist"⟩ ∧
      ((NewKVStore : KVStore String String).Update "a" "1").1
        = some ⟨"the key (a) does not exist"⟩ ∧
      ((NewKVStore : KVStore String String).Delete "a").err
        = some ⟨"the key (a) does not exits"⟩ ∧
      ((NewKVStore : KVStore String String).Delete "a").err
        ≠ ((NewKVStore : KVStore String String).Get "a").2 := by
  decide

/-! ## The HTTP handlers -/

/-- C10: for every server state and request, `handleGet` returns no handler error and responds
with status 200; when the requested key is present with value `v` the body is the object with
the single member `"value": v`, and when it is absent the body is the object with the single
member `"value": "key not found"`. -/
theorem C10_handleGet (s : Server) (c : Context) :
    (s.handleGet c).err = none ∧
      (∃ body, (s.handleGet c).resp = some { status := 200, body := body }) ∧
      (∀ v, s.Storage.data (c.Param "key") = some v →
        (s.handleGet c).resp = some { status := 200, body := [("value", v)] }) ∧
      (s.Storage.data (c.Param "key") = none →
        (s.handleGet c).resp = some { status := 200, body := [("value", "key not found")] }) := by
  cases h : s.Storage.data (c.Param "key") with
  | none =>
    have hg := Get_of_none s.Storage (c.Param "key") h
    simp [Server.handleGet, hg, Context.JSON, StatusOK]
  | some v =>
    have hg := Get_of_some s.Storage (c.Param "key") v h
    simp [Server.handleGet, hg, Context.JSON, StatusOK]

/-- Witness for C10: a hit on the key `a` stored with `1`, and a miss on the fresh server. -/
theorem C10_handleGet_witness :
    (((NewServer ":3000").handlePut ⟨[("key", "a"), ("value", "1")]⟩).server.handleGet
        ⟨[("key", "a")]⟩).resp = some { status := 200, body := [("value", "1")] } ∧
      ((NewServer ":3000").handleGet ⟨[("key", "a")]⟩).resp
        = some { status := 200, body := [("value", "key not found")] } :=
  ⟨(C10_handleGet ((NewServer ":3000").handlePut ⟨[("key", "a"), ("value", "1")]⟩).server
      ⟨[("key", "a")]⟩).2.2.1 "1" (by decide),
    (C10_handleGet (NewServer ":3000") ⟨[("key", "a")]⟩).2.2.2 (by decide)⟩

/-- C11: `handleUpdate` returns a handler error, the not-found error of `Update` with no
response sent, if and only if the requested key is absent, and otherwise responds 200 with
`"msg": "updated"`; `handleDelete` returns a handler error, the error of `Delete` with no
response sent, if and only if the key is absent, and otherwise responds 200 with
`"msg": "deleted"`; in both failing cases the server and its store are left as they were. -/
theorem C11_handleUpdate_handleDelete (s : Server) (c : Context) :
    (((s.handleUpdate c).err ≠ none ↔ s.Storage.Has (c.Param "key") = false) ∧
      (s.Storage.Has (c.Param "key") = false →
        (s.handleUpdate c).err = some (errNotExist (c.Param "key")) ∧
        (s.handleUpdate c).resp = none ∧ (s.handleUpdate c).server = s) ∧
      (s.Storage.Has (c.Param "key") = true →
        (s.handleUpdate c).err = none ∧
        (s.handleUpdate c).resp = some { status := 200, body := [("msg", "updated")] })) ∧
    (((s.handleDelete c).err ≠ none ↔ s.Storage.Has (c.Param "key") = false) ∧
      (s.Storage.Has (c.Param "key") = false →
        (s.handleDelete c).err = some (errNotExits (c.Param "key")) ∧
        (s.handleDelete c).resp = none ∧ (s.handleDelete c).server = s) ∧
      (s.Storage.Has (c.Param "key") = true →
        (s.handleDelete c).err = none ∧
        (s.handleDelete c).resp = some { status := 200, body := [("msg", "deleted")] })) := by
  cases h : s.Storage.Has (c.Param "key") with
  | false =>
    have hu := Update_of_absent s.Storage (c.Param "key") (c.Param "value") h
    have hd := Delete_of_absent s.Storage (c.Param "key") h
    simp [Server.handleUpdate, Server.handleDelete, hu, hd]
  | true =>
    have hu := Update_of_present s.Storage (c.Param "key") (c.Param "value") h
    have hd := Delete_of_present s.Storage (c.Param "key") h
    simp [Server.handleUpdate, Server.handleDelete, hu, hd, Context.JSON, StatusOK]

/-- Witness for C11: on the fresh server the key `a` is absent and both handlers fail; after
`handlePut` of `a` both succeed. -/
theorem C11_handleUpdate_handleDelete_witness :
    (((NewServer ":3000").handleUpdate ⟨[("key", "a"), ("value", "2")]⟩).err
        = some ⟨"the key (a) does not exist"⟩ ∧
      ((NewServer ":3000").handleUpdate ⟨[("key", "a"), ("value", "2")]⟩).resp = none ∧
      ((NewServer ":3000").handleUpdate ⟨[("key", "a"), ("value", "2")]⟩).server
        = NewServer ":3000") ∧
    ((((NewServer ":3000").handlePut ⟨[("key", "a"), ("value", "1")]⟩).server.handleDelete
        ⟨[("key", "a")]⟩).err = none ∧
      (((NewServer ":3000").handlePut ⟨[("key", "a"), ("value", "1")]⟩).server.handleDelete
        ⟨[("key", "a")]⟩).resp = some { status := 200, body := [("msg", "deleted")] }) :=
  ⟨(C11_handleUpdate_handleDelete (NewServer ":3000")
      ⟨[("key", "a"), ("value", "2")]⟩).1.2.1 (by decide),
    (C11_handleUpdate_handleDelete
      ((NewServer ":3000").handlePut ⟨[("key", "a"), ("value", "1")]⟩).server
      ⟨[("key", "a")]⟩).2.2.2 (by decide)⟩

/-- The outcomes of the handler sequence put, get, update, get, delete, get on one key,
followed by update and delete of the key `missing`, starting from `NewServer`. -/
theorem end_to_end_stages (addr k v1 v2 : String) :
    let put := Context.mk [("key", k), ("value", v1)]
    let upd := Context.mk [("key", k), ("value", v2)]
    let get := Context.mk [("key", k)]
    let s1 := ((NewServer addr).handlePut put).server
    let s2 := ((s1.handleGet get).server.handleUpdate upd).server
    let s3 := ((s2.handleGet get).server.handleDelete get).server
    let s4 := (s3.handleGet get).server
    let s5 := (s4.handleUpdate ⟨[("key", "missing"), ("value", "x")]⟩).server
    ((s1.handleGet get).err = none ∧
        (s1.handleGet get).resp = some { status := 200, body := [("value", v1)] }) ∧
      (((s1.handleGet get).server.handleUpdate upd).err = none ∧
        ((s1.handleGet get).server.handleUpdate upd).resp
          = some { status := 200, body := [("msg", "updated")] }) ∧
      ((s2.handleGet get).err = none ∧
        (s2.handleGet get).resp = some { status := 200, body := [("value", v2)] }) ∧
      (((s2.handleGet get).server.handleDelete get).err = none ∧
        ((s2.handleGet get).server.handleDelete get).resp
          = some { status := 200, body := [("msg", "deleted")] }) ∧
      ((s3.handleGet get).err = none ∧
        (s3.handleGet get).resp
          = some { status := 200, body := [("value", "key not found")] }) ∧
      ((s4.handleUpdate ⟨[("key", "missing"), ("value", "x")]⟩).err ≠ none ∧
        (s4.handleUpdate ⟨[("key", "missing"), ("value", "x")]⟩).resp = none) ∧
      ((s5.handleDelete ⟨[("key", "missing")]⟩).err ≠ none ∧
        (s5.handleDelete ⟨[("key", "missing")]⟩).resp = none) := by
  intro put upd get s1 s2 s3 s4 s5
  have hk1 : put.Param "key" = k := (Param_key_value k v1).1
  have hv1 : put.Param "value" = v1 := (Param_key_value k v1).2
  have hk2 : upd.Param "key" = k := (Param_key_value k v2).1
  have hv2 : upd.Param "value" = v2 := (Param_key_value k v2).2
  have hk : get.Param "key" = k := Param_key k
  have hm : ∀ c : Context, c.Param "key" = "missing" → ∀ t : Server,
      t.Storage.Has "missing" = false →
      ((t.handleUpdate c).err ≠ none ∧ (t.handleUpdate c).resp = none) ∧
      ((t.handleDelete c).err ≠ none ∧ (t.handleDelete c).resp = none) ∧
      (t.handleUpdate c).server = t := by
    intro c hc t ht
    have hu := Update_of_absent t.Storage "missing" (c.Param "value") ht
    have hd := Delete_of_absent t.Storage "missing" ht
    simp [Server.handleUpdate, Server.handleDelete, hc, hu, hd]
  -- the store at each stage
  have e1 : s1.Storage = ((NewKVStore : KVStore String String).Put k v1).2 := by
    show ((NewServer addr).handlePut put).server.Storage = _
    rw [handlePut_Storage, hk1, hv1]; rfl
  have p1 : s1.Storage.Has k = true := by
    rw [e1, Has_eq_isSome]; simp [Put_data]
  have e2 : s2.Storage = (s1.Storage.Put k v2).2 := by
    show ((s1.handleGet get).server.handleUpdate upd).server.Storage = _
    rw [handleUpdate_Storage, handleGet_server, hk2, hv2, Update_of_present _ _ _ p1]
  have p2 : s2.Storage.Has k = true := by
    rw [e2, Has_eq_isSome]; simp [Put_data]
  have e3 : s3.Storage = { data := s2.Storage.data.del k } := by
    show ((s2.handleGet get).server.handleDelete get).server.Storage = _
    rw [handleDelete_Storage, handleGet_server, hk, Delete_of_present _ _ p2]
  have d3 : ∀ x, s3.Storage.data x = none := by
    intro x
    rw [e3, e2, e1]
    by_cases hx : x = k <;> simp [GoMap.del, Put_data, hx, NewKVStore, GoMap.make]
  have e4 : s4 = s3 := handleGet_server s3 get
  have m4 : s4.Storage.Has "missing" = false := by
    rw [e4]; exact (Has_false_iff _ _).mpr (d3 _)
  have r4 := hm ⟨[("key", "missing"), ("value", "x")]⟩ (Param_key_value "missing" "x").1 s4 m4
  have e5 : s5 = s4 := r4.2.2
  have r5 := hm ⟨[("key", "missing")]⟩ (Param_key "missing") s5 (by rw [e5]; exact m4)
  have u1 : ((s1.handleGet get).server.handleUpdate upd).err = none ∧
      ((s1.handleGet get).server.handleUpdate upd).resp
        = some { status := 200, body := [("msg", "updated")] } := by
    rw [handleGet_server]
    have hu := Update_of_present s1.Storage k v2 p1
    simp [Server.handleUpdate, hk2, hv2, hu, Context.JSON, StatusOK]
  have u2 : ((s2.handleGet get).server.handleDelete get).err = none ∧
      ((s2.handleGet get).server.handleDelete get).resp
        = some { status := 200, body := [("msg", "deleted")] } := by
    rw [handleGet_server]
    have hd := Delete_of_present s2.Storage k p2
    simp [Server.handleDelete, hk, hd, Context.JSON, StatusOK]
  refine ⟨?_, u1, ?_, u2, ?_, r4.1, r5.2.1⟩
  · exact handleGet_hit s1 get v1 (by rw [hk, e1]; simp [Put_data])
  · exact handleGet_hit s2 get v2 (by rw [hk, e2]; simp [Put_data])
  · exact handleGet_miss s3 get (by rw [hk]; exact d3 k)

/-- C12: starting from `NewServer`, for every key `k` and values `v1`, `v2` (in particular
`"a"`, `"1"`, `"2"`): `handlePut(k, v1)` then `handleGet(k)` answers `"value": v1`; then
`handleUpdate(k, v2)` then `handleGet(k)` answers `"value": v2`; then `handleDelete(k)` then
`handleGet(k)` answers `"value": "key not found"`; after that `handleUpdate("missing", "x")`
and `handleDelete("missing")` each return an error and send no response.  Each outcome is
listed as whether an error was returned, and the response sent. -/
theorem C12_end_to_end (addr k v1 v2 : String) :
    ((NewServer addr).serve
        [(Route.put, ⟨[("key", k), ("value", v1)]⟩),
         (Route.get, ⟨[("key", k)]⟩),
         (Route.update, ⟨[("key", k), ("value", v2)]⟩),
         (Route.get, ⟨[("key", k)]⟩),
         (Route.delete, ⟨[("key", k)]⟩),
         (Route.get, ⟨[("key", k)]⟩),
         (Route.update, ⟨[("key", "missing"), ("value", "x")]⟩),
         (Route.delete, ⟨[("key", "missing")]⟩)]).map (fun r => (r.err.isSome, r.resp))
      = [(false, some { status := 200, body := [("msg", "ok")] }),
         (false, some { status := 200, body := [("value", v1)] }),
         (false, some { status := 200, body := [("msg", "updated")] }),
         (false, some { status := 200, body := [("value", v2)] }),
         (false, some { status := 200, body := [("msg", "deleted")] }),
         (false, some { status := 200, body := [("value", "key not found")] }),
         (true, none),
         (true, none)] := by
  obtain ⟨g1, u1, g2, d2, g3, um, dm⟩ := end_to_end_stages addr k v1 v2
  simp only [Server.serve, Server.route, List.map]
  rw [g1.1, g1.2, u1.1, u1.2, g2.1, g2.2, d2.1, d2.2, g3.1, g3.2, um.2, dm.2]
  have e1 := Option.isSome_iff_ne_none.mpr um.1
  have e2 := Option.isSome_iff_ne_none.mpr dm.1
  rw [e1, e2]
  rfl

/-! ## Effects of the store methods beyond their results -/

/-- C13: a `Delete` of a present key returns `nil` and writes exactly one line, the line
`the key (k) successfully deleted` that names the deleted key; the line is the same whatever
value (and whatever other entries) the store held. -/
theorem C13_delete_log {K V : Type} [DecidableEq K] [ZeroValue V] [FmtV K]
    (s t : KVStore K V) (k : K) (hs : s.Has k = true) (ht : t.Has k = true) :
    (s.Delete k).err = none ∧
      (s.Delete k).out = ["the key (" ++ FmtV.fmtV k ++ ") successfully deleted\n"] ∧
      (s.Delete k).out.length = 1 ∧
      (t.Delete k).out = (s.Delete k).out := by
  rw [Delete_of_present s k hs, Delete_of_present t k ht]
  exact ⟨rfl, rfl, rfl, rfl⟩

/-- Witness for C13: the key `a` deleted from a store holding `1` and from a store holding
`2` for it. -/
theorem C13_delete_log_witness :
    (((NewKVStore : KVStore String String).Put "a" "1").2.Delete "a").err = none ∧
      (((NewKVStore : KVStore String String).Put "a" "1").2.Delete "a").out
        = ["the key (a) successfully deleted\n"] ∧
      (((NewKVStore : KVStore String String).Put "a" "1").2.Delete "a").out.length = 1 ∧
      (((NewKVStore : KVStore String String).Put "a" "2").2.Delete "a").out
        = (((NewKVStore : KVStore String String).Put "a" "1").2.Delete "a").out :=
  C13_delete_log ((NewKVStore : KVStore String String).Put "a" "1").2
    ((NewKVStore : KVStore String String).Put "a" "2").2 "a" (by decide) (by decide)

/-- C15: after `Put(k, v)`, and likewise after a successful `Update(k, v)`, `Get` and `Has`
of any other key return exactly what they returned before. -/
theorem C15_write_frame {K V : Type} [DecidableEq K] [ZeroValue V] [FmtV K]
    (s : KVStore K V) (k k' : K) (v : V) (hne : k' ≠ k) :
    ((s.Put k v).2.Get k' = s.Get k' ∧ (s.Put k v).2.Has k' = s.Has k') ∧
      ((s.Update k v).1 = none →
        (s.Update k v).2.Get k' = s.Get k' ∧ (s.Update k v).2.Has k' = s.Has k') := by
  have hp : (s.Put k v).2.data k' = s.data k' := by simp [Put_data, hne]
  refine ⟨⟨Get_congr _ _ _ hp, Has_congr _ _ _ hp⟩, ?_⟩
  intro hu
  cases h : s.Has k with
  | false => simp [Update_of_absent s k v h] at hu
  | true =>
    rw [Update_of_present s k v h]
    exact ⟨Get_congr _ _ _ hp, Has_congr _ _ _ hp⟩

/-- Witness for C15: writing the key `a` leaves the entry of `b` and the absence of `c`. -/
theorem C15_write_frame_witness :
    ((((NewKVStore : KVStore String String).Put "b" "1").2.Put "a" "2").2.Get "b"
        = ("1", none) ∧
      ((((NewKVStore : KVStore String String).Put "b" "1").2.Put "a" "2").2.Put "a" "3").2.Has
        "c" = false) ∧
      ((((NewKVStore : KVStore String String).Put "b" "1").2.Put "a" "2").2.Update "a" "3").2.Get
        "b" = ("1", none) :=
  ⟨⟨((C15_write_frame ((NewKVStore : KVStore String String).Put "b" "1").2 "a" "b" "2"
        (by decide)).1.1).trans (by decide),
      ((C15_write_frame (((NewKVStore : KVStore String String).Put "b" "1").2.Put "a" "2").2
        "a" "c" "3" (by decide)).1.2).trans (by decide)⟩,
    (((C15_write_frame (((NewKVStore : KVStore String String).Put "b" "1").2.Put "a" "2").2
        "a" "b" "3" (by decide)).2 (by decide)).1).trans (by decide)⟩

/-- C16: after a successful `Delete(k)` of a present key, `Get` and `Has` of any other key
return exactly what they returned before. -/
theorem C16_delete_frame {K V : Type} [DecidableEq K] [ZeroValue V] [FmtV K]
    (s : KVStore K V) (k k' : K) (hk : s.Has k = true) (hne : k' ≠ k) :
    (s.Delete k).err = none ∧
      (s.Delete k).store.Get k' = s.Get k' ∧ (s.Delete k).store.Has k' = s.Has k' := by
  rw [Delete_of_present s k hk]
  have hd : ({ data := s.data.del k } : KVStore K V).data k' = s.data k' := by
    simp [GoMap.del, hne]
  exact ⟨rfl, Get_congr _ _ _ hd, Has_congr _ _ _ hd⟩

/-- Witness for C16: deleting `a` leaves the entry of `b`. -/
theorem C16_delete_frame_witness :
    ((((NewKVStore : KVStore String String).Put "b" "1").2.Put "a" "2").2.Delete "a").store.Get
        "b" = ("1", none) :=
  ((C16_delete_frame (((NewKVStore : KVStore String String).Put "b" "1").2.Put "a" "2").2
    "a" "b" (by decide) (by decide)).2.1).trans (by decide)

/-- C17: a `Delete` of an absent key leaves the store equal to the store before the call
and writes no line; its only effect is the returned error. -/
theorem C17_delete_absent {K V : Type} [DecidableEq K] [ZeroValue V] [FmtV K]
    (s : KVStore K V) (k : K) (h : s.Has k = false) :
    (s.Delete k).store = s ∧ (s.Delete k).out = [] ∧ (s.Delete k).err ≠ none := by
  rw [Delete_of_absent s k h]
  exact ⟨rfl, rfl, by simp⟩

/-- Witness for C17: deleting the absent key `a` from the store holding only `b`. -/
theorem C17_delete_absent_witness :
    (((NewKVStore : KVStore String String).Put "b" "1").2.Delete "a").store
        = ((NewKVStore : KVStore String String).Put "b" "1").2 ∧
      (((NewKVStore : KVStore String String).Put "b" "1").2.Delete "a").out = [] ∧
      (((NewKVStore : KVStore String String).Put "b" "1").2.Delete "a").err ≠ none :=
  C17_delete_absent ((NewKVStore : KVStore String String).Put "b" "1").2 "a" (by decide)

/-- C18: the server state reached from `NewServer` by `handlePut("a", "key not found")` holds
the key `a`, the fresh server does not, and `handleGet("a")` returns the same error, status
and body on both; so the GET response alone does not tell whether the key is present. -/
theorem C18_get_response_ambiguous :
    ((NewServer ":3000").handlePut ⟨[("key", "a"), ("value", "key not found")]⟩).server.Storage.Has
        "a" = true ∧
      (NewServer ":3000").Storage.Has "a" = false ∧
      (((NewServer ":3000").handlePut
          ⟨[("key", "a"), ("value", "key not found")]⟩).server.handleGet ⟨[("key", "a")]⟩).resp
        = some { status := 200, body := [("value", "key not found")] } ∧
      (((NewServer ":3000").handlePut
          ⟨[("key", "a"), ("value", "key not found")]⟩).server.handleGet ⟨[("key", "a")]⟩).resp
        = ((NewServer ":3000").handleGet ⟨[("key", "a")]⟩).resp ∧
      (((NewServer ":3000").handlePut
          ⟨[("key", "a"), ("value", "key not found")]⟩).server.handleGet ⟨[("key", "a")]⟩).err
        = ((NewServer ":3000").handleGet ⟨[("key", "a")]⟩).err := by
  decide

/-- C19: for a key absent from the store, `Put` followed by `Delete` of that key succeeds and
leaves a store equal to the original one; and for every key, a second `Delete` right after a
successful `Delete` fails with the not-found error of `Delete`. -/
theorem C19_put_delete_undo {K V : Type} [DecidableEq K] [ZeroValue V] [FmtV K]
    (s : KVStore K V) (k : K) (v : V) :
    (s.Has k = false →
        (s.Put k v).1 = none ∧ ((s.Put k v).2.Delete k).err = none ∧
        ((s.Put k v).2.Delete k).store = s) ∧
      ((s.Delete k).err = none →
        ((s.Delete k).store.Delete k).err = some (errNotExits k) ∧
        ((s.Delete k).store.Delete k).store = (s.Delete k).store) := by
  constructor
  · intro h
    have hp : (s.Put k v).2.Has k = true := by
      rw [Has_eq_isSome]; simp [Put_data]
    rw [Delete_of_present _ k hp]
    refine ⟨rfl, rfl, ?_⟩
    have hd : (s.Put k v).2.data.del k = s.data := by
      funext x
      by_cases hx : x = k
      · subst hx
        simp [GoMap.del, (Has_false_iff s x).mp h]
      · simp [GoMap.del, hx, Put_data]
    exact congrArg KVStore.mk hd
  · intro hok
    cases h : s.Has k with
    | false => simp [Delete_of_absent s k h] at hok
    | true =>
      have ha : (s.Delete k).store.Has k = false := by
        rw [Delete_of_present s k h, Has_false_iff]
        simp [GoMap.del]
      rw [Delete_of_absent _ k ha]
      exact ⟨rfl, rfl⟩

/-- Witness for C19: on the store holding only `b`, `Put` then `Delete` of the fresh key `a`
gives the store back; deleting `b` twice fails the second time. -/
theorem C19_put_delete_undo_witness :
    ((((NewKVStore : KVStore String String).Put "b" "1").2.Put "a" "2").2.Delete "a").store
        = ((NewKVStore : KVStore String String).Put "b" "1").2 ∧
      ((((NewKVStore : KVStore String String).Put "b" "1").2.Delete "b").store.Delete "b").err
        = some ⟨"the key (b) does not exits"⟩ :=
  ⟨((C19_put_delete_undo ((NewKVStore : KVStore String String).Put "b" "1").2 "a" "2").1
      (by decide)).2.2,
    ((C19_put_delete_undo ((NewKVStore : KVStore String String).Put "b" "1").2 "b" "2").2
      (by decide)).1⟩

/-- C20: `Get` and `Has` leave the store as it was, whether the key is present or not; after
any number of `Get` calls of a key the next `Get` of it returns what the first would have
returned; and `handleGet` hands back the server, store included, unchanged. -/
theorem C20_reads_do_not_write {K V : Type} [DecidableEq K] [ZeroValue V] [FmtV K]
    (s : KVStore K V) (k : K) (n : Nat) :
    Op.apply s (Op.Get k : Op K V) = s ∧ Op.apply s (Op.Has k : Op K V) = s ∧
      run s (List.replicate n (Op.Get k : Op K V)) = s ∧
      (run s (List.replicate n (Op.Get k : Op K V))).Get k = s.Get k ∧
      (∀ (srv : Server) (c : Context),
        (srv.handleGet c).server = srv ∧ (srv.handleGet c).server.Storage = srv.Storage) := by
  refine ⟨rfl, rfl, run_replicate_Get s k n, by rw [run_replicate_Get], ?_⟩
  intro srv c
  rw [handleGet_server]
  exact ⟨rfl, rfl⟩

/-! ## Facts about the lock discipline -/

/-- Replacing one element of a list changes a count by the difference of the two elements. -/
theorem countP_set_add {α : Type} (p : α → Bool) (l : List α) (i : Nat) (a b : α)
    (h : l[i]? = some a) :
    (l.set i b).countP p + (if p a = true then 1 else 0)
      = l.countP p + (if p b = true then 1 else 0) := by
  induction l generalizing i with
  | nil => simp at h
  | cons x xs ih =>
    cases i with
    | zero =>
      simp only [List.getElem?_cons_zero, Option.some.injEq] at h
      subst h
      simp only [List.set_cons_zero, List.countP_cons]
      omega
    | succ n =>
      simp only [List.getElem?_cons_succ] at h
      have h2 := ih n h
      simp only [List.set_cons_succ, List.countP_cons]
      omega

/-- Two different positions holding elements that are counted give a count of at least two. -/
theorem two_le_countP {α : Type} (p : α → Bool) (l : List α) (i j : Nat) (a b : α)
    (hij : i ≠ j) (hi : l[i]? = some a) (hj : l[j]? = some b)
    (ha : p a = true) (hb : p b = true) : 2 ≤ l.countP p := by
  induction l generalizing i j with
  | nil => simp at hi
  | cons x xs ih =>
    have one_le : ∀ (n : Nat) (c : α), xs[n]? = some c → p c = true → 1 ≤ xs.countP p :=
      fun n c hn hc => List.countP_pos_iff.mpr ⟨c, List.getElem?_mem hn, hc⟩
    cases i with
    | zero =>
      cases j with
      | zero => exact absurd rfl hij
      | succ m =>
        simp only [List.getElem?_cons_zero, Option.some.injEq] at hi
        simp only [List.getElem?_cons_succ] at hj
        have h1 := one_le m b hj hb
        rw [List.countP_cons, hi, if_pos ha]
        omega
    | succ n =>
      cases j with
      | zero =>
        simp only [List.getElem?_cons_zero, Option.some.injEq] at hj
        simp only [List.getElem?_cons_succ] at hi
        have h1 := one_le n a hi ha
        rw [List.countP_cons, hj, if_pos hb]
        omega
      | succ m =>
        simp only [List.getElem?_cons_succ] at hi hj
        have h2 := ih n m (fun e => hij (by rw [e])) hi hj
        rw [List.countP_cons]
        omega

/-- The invariant survives the replacement of one goroutine when the new goroutine follows
the protocol and the mutex changes by what that goroutine acquired or released. -/
theorem Inv_set (σ : Sys) (i : Nat) (t t1 : Thread) (mu1 : RWMutex) (hinv : σ.Inv)
    (ht : σ.threads[i]? = some t)
    (hd1 : Thread.disciplined t1.held t1.rest = true)
    (he : (if t1.isExclusive = true then 1 else 0) + (if σ.mu.writer = true then 1 else 0)
      = (if t.isExclusive = true then 1 else 0) + (if mu1.writer = true then 1 else 0))
    (hs : (if t1.isShared = true then 1 else 0) + σ.mu.readers
      = (if t.isShared = true then 1 else 0) + mu1.readers)
    (hw : mu1.writer = true → mu1.readers = 0) :
    Sys.Inv { mu := mu1, threads := σ.threads.set i t1 } := by
  obtain ⟨hd, hce, hcs, _⟩ := hinv
  have ce := countP_set_add Thread.isExclusive σ.threads i t t1 ht
  have cs := countP_set_add Thread.isShared σ.threads i t t1 ht
  refine ⟨?_, ?_, ?_, hw⟩
  · intro x hx
    rcases List.mem_or_eq_of_mem_set hx with hx | hx
    · exact hd x hx
    · rw [hx]; exact hd1
  · show (σ.threads.set i t1).countP Thread.isExclusive = if mu1.writer = true then 1 else 0
    omega
  · show (σ.threads.set i t1).countP Thread.isShared = mu1.readers
    omega

/-- What one step of a goroutine that follows the protocol does: the goroutine still follows
the protocol, and the mutex changes by exactly what the goroutine acquired or released. -/
theorem Thread.step_effect (mu mu1 : RWMutex) (t t1 : Thread)
    (h : t.step mu = some (mu1, t1)) (hd : Thread.disciplined t.held t.rest = true)
    (hwr : mu.writer = true → mu.readers = 0) :
    Thread.disciplined t1.held t1.rest = true ∧
      ((if t1.isExclusive = true then 1 else 0) + (if mu.writer = true then 1 else 0)
        = (if t.isExclusive = true then 1 else 0) + (if mu1.writer = true then 1 else 0)) ∧
      ((if t1.isShared = true then 1 else 0) + mu.readers
        = (if t.isShared = true then 1 else 0) + mu1.readers) ∧
      (mu1.writer = true → mu1.readers = 0) := by
  obtain ⟨held, rest⟩ := t
  cases rest with
  | nil => simp [Thread.step] at h
  | cons a r =>
    cases a with
    | Lock =>
      cases held <;> simp only [Thread.disciplined] at hd <;> try exact absurd hd (by decide)
      simp only [Thread.step] at h
      by_cases hc : mu.writer = false ∧ mu.readers = 0
      · rw [if_pos hc] at h
        simp only [Option.some.injEq, Prod.mk.injEq] at h
        obtain ⟨rfl, rfl⟩ := h
        refine ⟨hd, ?_, ?_, ?_⟩ <;> simp [Thread.isExclusive, Thread.isShared, hc.1, hc.2]
      · rw [if_neg hc] at h
        exact absurd h (by simp)
    | Unlock =>
      cases held <;> simp only [Thread.disciplined] at hd <;> try exact absurd hd (by decide)
      simp only [Thread.step] at h
      by_cases hc : mu.writer = true
      · rw [if_pos hc] at h
        simp only [Option.some.injEq, Prod.mk.injEq] at h
        obtain ⟨rfl, rfl⟩ := h
        refine ⟨hd, ?_, ?_, ?_⟩ <;> simp [Thread.isExclusive, Thread.isShared, hc]
      · rw [if_neg hc] at h
        exact absurd h (by simp)
    | RLock =>
      cases held <;> simp only [Thread.disciplined] at hd <;> try exact absurd hd (by decide)
      simp only [Thread.step] at h
      by_cases hc : mu.writer = false
      · rw [if_pos hc] at h
        simp only [Option.some.injEq, Prod.mk.injEq] at h
        obtain ⟨rfl, rfl⟩ := h
        refine ⟨hd, ?_, ?_, ?_⟩ <;> simp [Thread.isExclusive, Thread.isShared, hc]
        omega
      · rw [if_neg hc] at h
        exact absurd h (by simp)
    | RUnlock =>
      cases held <;> simp only [Thread.disciplined] at hd <;> try exact absurd hd (by decide)
      simp only [Thread.step] at h
      by_cases hc : 0 < mu.readers
      · rw [if_pos hc] at h
        simp only [Option.some.injEq, Prod.mk.injEq] at h
        obtain ⟨rfl, rfl⟩ := h
        refine ⟨hd, ?_, ?_, ?_⟩
        · simp [Thread.isExclusive]
        · simp [Thread.isShared]; omega
        · intro hw; have := hwr hw; omega
      · rw [if_neg hc] at h
        exact absurd h (by simp)
    | ReadMap =>
      cases held <;> simp only [Thread.disciplined] at hd <;> try exact absurd hd (by decide)
      all_goals
        simp only [Thread.step, Option.some.injEq, Prod.mk.injEq] at h
        obtain ⟨rfl, rfl⟩ := h
        exact ⟨hd, rfl, rfl, hwr⟩
    | WriteMap =>
      cases held <;> simp only [Thread.disciplined] at hd <;> try exact absurd hd (by decide)
      simp only [Thread.step, Option.some.injEq, Prod.mk.injEq] at h
      obtain ⟨rfl, rfl⟩ := h
      exact ⟨hd, rfl, rfl, hwr⟩

/-- One step of one goroutine keeps the invariant. -/
theorem Inv_step (σ σ1 : Sys) (i : Nat) (hinv : σ.Inv) (h : σ.step i = some σ1) : σ1.Inv := by
  unfold Sys.step at h
  cases ht : σ.threads[i]? with
  | none => simp [ht] at h
  | some t =>
    simp only [ht] at h
    cases hs : t.step σ.mu with
    | none => simp [hs] at h
    | some r =>
      obtain ⟨mu1, t1⟩ := r
      simp only [hs, Option.some.injEq] at h
      have hdt := hinv.1 t (List.getElem?_mem ht)
      obtain ⟨e1, e2, e3, e4⟩ := Thread.step_effect σ.mu mu1 t t1 hs hdt hinv.2.2.2
      rw [← h]
      exact Inv_set σ i t t1 mu1 hinv ht e1 e2 e3 e4

/-- Every schedule keeps the invariant. -/
theorem Inv_exec (sched : List Nat) (σ σ1 : Sys) (hinv : σ.Inv)
    (h : σ.exec sched = some σ1) : σ1.Inv := by
  induction sched generalizing σ with
  | nil =>
    simp only [Sys.exec, Option.some.injEq] at h
    rw [← h]; exact hinv
  | cons i sched ih =>
    simp only [Sys.exec] at h
    cases hs : σ.step i with
    | none => simp [hs] at h
    | some σ2 =>
      simp only [hs] at h
      exact ih σ2 (Inv_step σ σ2 i hinv hs) h

/-- Under the invariant no read of the map is about to run while another goroutine holds the
mutex exclusively. -/
theorem Inv_no_readDuringMutation (σ : Sys) (hinv : σ.Inv) : ¬ σ.readDuringMutation := by
  rintro ⟨i, j, ti, tj, hij, hi, hj, hread, hex⟩
  obtain ⟨hd, hce, hcs, hw⟩ := hinv
  have hdi := hd ti (List.getElem?_mem hi)
  have hje : tj.isExclusive = true := by simp [Thread.isExclusive, hex]
  have h1 : 1 ≤ σ.threads.countP Thread.isExclusive :=
    List.countP_pos_iff.mpr ⟨tj, List.getElem?_mem hj, hje⟩
  have hwt : σ.mu.writer = true := by
    by_contra hn
    rw [if_neg hn] at hce
    omega
  obtain ⟨held, rest⟩ := ti
  cases rest with
  | nil => simp at hread
  | cons a r =>
    simp only [List.head?_cons, Option.some.injEq] at hread
    subst hread
    cases held with
    | free => simp [Thread.disciplined] at hdi
    | shared =>
      have h2 : 1 ≤ σ.threads.countP Thread.isShared :=
        List.countP_pos_iff.mpr ⟨_, List.getElem?_mem hi, by simp [Thread.isShared]⟩
      have := hw hwt
      omega
    | exclusive =>
      have h2 := two_le_countP Thread.isExclusive σ.threads i j _ tj hij hi hj
        (by simp [Thread.isExclusive]) hje
      rw [if_pos hwt] at hce
      omega

/-- Every call other than a bare `Has` follows the locking protocol, on either branch. -/
theorem actions_disciplined {K V : Type} (op : Op K V) (present : Bool)
    (h : ∀ key, op ≠ Op.Has key) :
    Thread.disciplined Held.free (op.actions present) = true := by
  cases op with
  | Has key => exact absurd rfl (h key)
  | Put key val => rfl
  | Get key => rfl
  | Update key val => cases present <;> rfl
  | Delete key => cases present <;> rfl

/-- The start state satisfies the invariant when no goroutine is a bare call of `Has`. -/
theorem Inv_init {K V : Type} (calls : List (Op K V × Bool))
    (h : ∀ c ∈ calls, ∀ key, c.1 ≠ Op.Has key) : (Sys.init calls).Inv := by
  refine ⟨?_, ?_, ?_, ?_⟩
  · intro t ht
    simp only [Sys.init, List.mem_map] at ht
    obtain ⟨c, hc, rfl⟩ := ht
    exact actions_disciplined c.1 c.2 (h c hc)
  · simp only [Sys.init]
    rw [List.countP_eq_zero.mpr]
    · simp
    · intro t ht
      simp only [List.mem_map] at ht
      obtain ⟨c, _, rfl⟩ := ht
      simp [Thread.isExclusive]
  · simp only [Sys.init]
    rw [List.countP_eq_zero.mpr]
    intro t ht
    simp only [List.mem_map] at ht
    obtain ⟨c, _, rfl⟩ := ht
    simp [Thread.isShared]
  · intro _; rfl

/-- C14, as stated, fails for a direct call of `Has`: the steps of `Has` contain no lock
operation, and with one goroutine in `Put("a", "1")` and one in `Has("a")`, after the step
`Lock` of `Put` the write to the map by `Put` and the read of the map by `Has` are both ready
to run, the read while the mutation is in flight. -/
theorem C14_has_reads_unlocked :
    Action.RLock ∉ (Op.actions false (Op.Has "a" : Op String String)) ∧
      Action.Lock ∉ (Op.actions false (Op.Has "a" : Op String String)) ∧
      ∃ σ : Sys,
        (Sys.init [(Op.Put "a" "1", false), (Op.Has "a", false)]).exec [0] = some σ ∧
        σ.threads[0]? = some { held := Held.exclusive, rest := [Action.WriteMap, Action.Unlock] } ∧
        σ.threads[1]? = some { held := Held.free, rest := [Action.ReadMap] } ∧
        (σ.step 0).isSome = true ∧ (σ.step 1).isSome = true ∧
        σ.readDuringMutation := by
  refine ⟨by decide, by decide,
    { mu := { writer := true, readers := 0 },
      threads := [{ held := Held.exclusive, rest := [Action.WriteMap, Action.Unlock] },
        { held := Held.free, rest := [Action.ReadMap] }] },
    by decide, by decide, by decide, by decide, by decide, ?_⟩
  exact ⟨1, 0, _, _, by decide, rfl, rfl, rfl, rfl⟩

/-- C14, amended: `Get` takes the mutex in shared mode around its read of the map; `Put`,
`Update` and `Delete` take it in exclusive mode as their first step and release it as their
last, with every access to the map in between (the lookup of `Update` being the body of
`Has`); `Has` itself takes no lock.  With any number of goroutines running calls of `Put`,
`Get`, `Update` and `Delete` (on either branch), under every schedule, no read of the map is
ever about to run while another goroutine is inside a write-locked section. -/
theorem C14_lock_discipline {K V : Type} (calls : List (Op K V × Bool))
    (hno : ∀ c ∈ calls, ∀ key, c.1 ≠ Op.Has key) (sched : List Nat) (σ : Sys)
    (h : (Sys.init calls).exec sched = some σ) :
    ¬ σ.readDuringMutation ∧
      (∀ (p : Bool) (key : K),
        (Op.Get key : Op K V).actions p = [Action.RLock, Action.ReadMap, Action.RUnlock]) ∧
      (∀ (p : Bool) (key : K) (val : V),
        (Op.Put key val).actions p = [Action.Lock, Action.WriteMap, Action.Unlock]) ∧
      (∀ (key : K) (val : V),
        (Op.Update key val).actions true
            = [Action.Lock] ++ HasActions ++ [Action.WriteMap, Action.Unlock] ∧
          (Op.Update key val).actions false = [Action.Lock] ++ HasActions ++ [Action.Unlock]) ∧
      (∀ (key : K),
        (Op.Delete key : Op K V).actions true
            = [Action.Lock, Action.ReadMap, Action.WriteMap, Action.Unlock] ∧
          (Op.Delete key : Op K V).actions false
            = [Action.Lock, Action.ReadMap, Action.Unlock]) ∧
      HasActions = [Action.ReadMap] :=
  ⟨Inv_no_readDuringMutation σ (Inv_exec sched _ σ (Inv_init calls hno) h),
    fun _ _ => rfl, fun _ _ _ => rfl, fun _ _ => ⟨rfl, rfl⟩, fun _ => ⟨rfl, rfl⟩, rfl⟩

/-- Witness for C14: a `Put`, a `Get` and an `Update` of the key `a`.  After the `Lock` of
`Put` the `Get` cannot take its step `RLock` and no read runs during the mutation; and the
three calls run to completion one after the other. -/
theorem C14_lock_discipline_witness :
    (Sys.init [(Op.Put "a" "1", false), (Op.Get "a", true), (Op.Update "a" "2", true)]).exec [0]
        = some { mu := { writer := true, readers := 0 },
                 threads := [{ held := Held.exclusive, rest := [Action.WriteMap, Action.Unlock] },
                   { held := Held.free, rest := [Action.RLock, Action.ReadMap, Action.RUnlock] },
                   { held := Held.free,
                     rest := [Action.Lock, Action.ReadMap, Action.WriteMap, Action.Unlock] }] } ∧
      ¬ Sys.readDuringMutation
          { mu := { writer := true, readers := 0 },
            threads := [{ held := Held.exclusive, rest := [Action.WriteMap, Action.Unlock] },
              { held := Held.free, rest := [Action.RLock, Action.ReadMap, Action.RUnlock] },
              { held := Held.free,
                rest := [Action.Lock, Action.ReadMap, Action.WriteMap, Action.Unlock] }] } ∧
      (Sys.init [(Op.Put "a" "1", false), (Op.Get "a", true), (Op.Update "a" "2", true)]).exec
          [0, 1] = none ∧
      (Sys.init [(Op.Put "a" "1", false), (Op.Get "a", true), (Op.Update "a" "2", true)]).exec
          [0, 0, 0, 1, 1, 1, 2, 2, 2, 2]
        = some { mu := { writer := false, readers := 0 },
                 threads := [{ held := Held.free, rest := [] }, { held := Held.free, rest := [] },
                   { held := Held.free, rest := [] }] } :=
  ⟨by decide,
    (C14_lock_discipline
      [(Op.Put "a" "1", false), (Op.Get "a", true), (Op.Update "a" "2", true)]
      (by
        intro c hc key
        simp only [List.mem_cons, List.mem_singleton, List.not_mem_nil, or_false] at hc
        rcases hc with rfl | rfl | rfl <;> simp)
      [0] _ (by decide)).1,
    by decide, by decide⟩

end KVStoreGo
